import Mathlib

/-!
# Verification of the MediaMetadataExtractor pipeline

Shallow embedding of `src/MediaMetadataParser.py` and `src/convert.py`.

Conventions of the embedding:
* Python floats (durations, modification times) are modelled as `ℚ`;
  the claims under study concern rendering shape and arithmetic structure,
  not binary floating-point rounding.
* Python dicts built by literal insertion are modelled as association lists
  (`List (String × Value)`); key order is insertion order and all inserted
  keys are distinct, so `List.lookup` agrees with dict indexing.
* The external decoder (`moviepy.VideoFileClip`) is an environment parameter:
  opening a file either succeeds with a `ClipInfo` (its attributes, optional
  ones as `Option`) or fails with an exception message (`DecodeOutcome`).
* `pathlib` facts are embedded following the observed semantics of
  CPython 3.11: `Path.rglob('*')` yields every descendant entry, directories
  included, descending into hidden directories; on a non-directory root it
  yields nothing; `Path.suffix` and `Path.parent` are the usual lexical
  operations.
-/

/-- Character for a decimal digit `d < 10` (models Python's decimal rendering). -/
def digitChar (d : Nat) : Char := Char.ofNat (48 + d)

/-- Fuel-driven decimal rendering of a natural number, most significant digit
first; `fuel ≥ n` suffices. Structural on the fuel so it reduces in the kernel. -/
def natStrAux : Nat → Nat → List Char
  | 0, _ => []
  | fuel + 1, n => if n = 0 then [] else natStrAux fuel (n / 10) ++ [digitChar (n % 10)]

/-- Decimal digit string of a natural number, as Python's `str` renders it. -/
def natStrL (n : Nat) : List Char := if n = 0 then ['0'] else natStrAux n n

/-- `natStrL`, packaged as a `String`. -/
def natStr (n : Nat) : String := ⟨natStrL n⟩

/-- The fractional part of Python's `:.2f`: two decimal digits, zero-padded. -/
def twoDigitsL (fp : Nat) : List Char :=
  if fp < 10 then '0' :: natStrL fp else natStrL fp

/-- Rendering of a number of centesimals `n` as `⟨sign⟩⟨units⟩.⟨two digits⟩`. -/
def format2Int (n : ℤ) : String :=
  ⟨(if n < 0 then ['-'] else []) ++ natStrL (n.natAbs / 100) ++ ['.'] ++
    twoDigitsL (n.natAbs % 100)⟩

/-- Model of Python's `f"{x:.2f}"` on a rational: round to centesimals
(ties up), then render with exactly two digits after the point. -/
def format2 (q : ℚ) : String := format2Int ⌊q * 100 + 1 / 2⌋

/-- Python's rendering of an integral float (`str(1.0) = "1.0"`), used for the
`hours`/`minutes` pieces of the duration string, which are float results
of `//`. -/
def intFloatStr (z : ℤ) : String :=
  ⟨(if z < 0 then ['-'] else []) ++ natStrL z.natAbs ++ ['.', '0']⟩

/-- Number of characters after the last `'.'` of a string, `none` when the
string has no `'.'` at all. -/
def decimalsOf (s : String) : Option Nat :=
  let r := s.data.reverse
  let t := r.takeWhile (fun c => c != '.')
  if t.length = r.length then none else some t.length

example : natStr 0 = "0" := by decide
example : natStr 1234 = "1234" := by decide
example : format2Int 372550 = "3725.50" := by decide
example : decimalsOf "3725.50" = some 2 := by decide
example : decimalsOf "12" = none := by decide
example : format2 (5 / (1024 * 1024) : ℚ) = "0.00" := by
  rw [format2, show ⌊(5 / (1024 * 1024) : ℚ) * 100 + 1 / 2⌋ = (0 : ℤ) by norm_num]
  decide

theorem natStrAux_mem_isDigit :
    ∀ (fuel n : Nat), ∀ c ∈ natStrAux fuel n, c.isDigit = true := by
  intro fuel
  induction fuel with
  | zero => intro n c hc; simp [natStrAux] at hc
  | succ fuel ih =>
    intro n c hc
    by_cases h0 : n = 0
    · simp [natStrAux, h0] at hc
    · simp only [natStrAux, h0, if_false, List.mem_append, List.mem_singleton] at hc
      rcases hc with hc | hc
      · exact ih _ c hc
      · subst hc
        have hlt : n % 10 < 10 := Nat.mod_lt _ (by omega)
        interval_cases h : (n % 10) <;> decide

theorem natStrL_mem_isDigit (n : Nat) : ∀ c ∈ natStrL n, c.isDigit = true := by
  intro c hc
  by_cases h0 : n = 0
  · simp [natStrL, h0] at hc; subst hc; decide
  · simp only [natStrL, h0, if_false] at hc
    exact natStrAux_mem_isDigit n n c hc

theorem twoDigitsL_mem_isDigit (fp : Nat) : ∀ c ∈ twoDigitsL fp, c.isDigit = true := by
  intro c hc
  unfold twoDigitsL at hc
  by_cases h : fp < 10
  · simp only [h, if_true, List.mem_cons] at hc
    rcases hc with hc | hc
    · subst hc; decide
    · exact natStrL_mem_isDigit fp c hc
  · simp only [h, if_false] at hc
    exact natStrL_mem_isDigit fp c hc

theorem twoDigitsL_length (fp : Nat) (h : fp < 100) : (twoDigitsL fp).length = 2 := by
  by_cases h10 : fp < 10
  · have : (natStrL fp).length = 1 := by interval_cases fp <;> decide
    simp [twoDigitsL, h10, this]
  · have : (natStrL fp).length = 2 := by interval_cases fp <;> decide
    simp [twoDigitsL, h10, this]

theorem isDigit_bne_dot (c : Char) (h : c.isDigit = true) : (c != '.') = true := by
  rcases eq_or_ne c '.' with rfl | hne
  · exact absurd h (by decide)
  · simpa [bne_iff_ne] using hne

theorem takeWhile_append_all {p : Char → Bool} :
    ∀ (l₁ l₂ : List Char), (∀ c ∈ l₁, p c = true) →
      List.takeWhile p (l₁ ++ l₂) = l₁ ++ List.takeWhile p l₂ := by
  intro l₁
  induction l₁ with
  | nil => intro l₂ _; simp
  | cons a t ih =>
    intro l₂ h
    have ha : p a = true := h a (by simp)
    simp [List.takeWhile, ha, ih l₂ (fun c hc => h c (by simp [hc]))]

/-- `format2Int` always renders exactly two digits after its unique point. -/
theorem decimalsOf_format2Int (n : ℤ) : decimalsOf (format2Int n) = some 2 := by
  unfold format2Int decimalsOf
  set a : ℕ := n.natAbs with ha
  set sg : List Char := if n < 0 then ['-'] else [] with hsg
  set ip : List Char := natStrL (a / 100) with hip
  set td : List Char := twoDigitsL (a % 100) with htd
  have hmod : a % 100 < 100 := Nat.mod_lt _ (by omega)
  have hlen : td.length = 2 := twoDigitsL_length _ hmod
  have hdig : ∀ c ∈ td.reverse, (c != '.') = true := by
    intro c hc
    rw [List.mem_reverse] at hc
    exact isDigit_bne_dot c (twoDigitsL_mem_isDigit (a % 100) c hc)
  have hrev : ((sg ++ ip ++ ['.'] ++ td).reverse)
      = td.reverse ++ ['.'] ++ (sg ++ ip).reverse := by
    simp [List.reverse_append]
  simp only [String.data]
  rw [hrev]
  have htake : List.takeWhile (fun c => c != '.')
      (td.reverse ++ ['.'] ++ (sg ++ ip).reverse)
      = td.reverse := by
    rw [List.append_assoc]
    rw [takeWhile_append_all td.reverse (['.'] ++ (sg ++ ip).reverse) hdig]
    simp [List.takeWhile]
  rw [htake]
  have hlt : td.reverse.length <
      (td.reverse ++ ['.'] ++ (sg ++ ip).reverse).length := by
    simp
  rw [if_neg (by omega)]
  simp [hlen]

/-- `format2` always renders exactly two digits after the decimal point. -/
theorem decimalsOf_format2 (q : ℚ) : decimalsOf (format2 q) = some 2 := by
  unfold format2; exact decimalsOf_format2Int _

/-! ## Data model of `src/MediaMetadataParser.py` -/

/-- A value held in a metadata record: Python strings, ints and floats as
they occur in the dict built by `get_media_metadata`. -/
inductive Value where
  | vStr (s : String)
  | vNat (n : Nat)
  | vRat (q : ℚ)
deriving DecidableEq

/-- Filesystem facts about one file, as obtained from `Path.stat` and
`datetime.strftime`: name, full path, byte size, raw modification epoch and
its formatted rendering (the formatting of `strftime` is environment input). -/
structure FileStatT where
  name : String
  path : String
  sizeB : Nat
  mtime : ℚ
  mdate : String
deriving DecidableEq

/-- The attributes of a successfully opened `VideoFileClip`.  `duration`,
`size` and `color_space` are accessed unguarded by the source; the rest are
read through `hasattr` guards, hence `Option` (`none` models the attribute
being absent, which the source maps to `'N/A'`). -/
structure ClipInfo where
  duration : ℚ
  width : Nat
  height : Nat
  color_space : Value
  fps : Option ℚ
  codec : Option String
  pixel_format : Option String
  depth : Option Value
  rotation : Option Value
  bitrate : Option Value
  infos : Option Value
deriving DecidableEq

/-- Outcome of `VideoFileClip(str(file_path))`: either the clip's attributes,
or the message of the exception the decoder raised. -/
inductive DecodeOutcome where
  | success (c : ClipInfo)
  | failure (msg : String)
deriving DecidableEq

/-- One metadata record: the Python dict, as an insertion-ordered
association list. -/
abbrev Record := List (String × Value)

/-- `clip.duration//60//60` (Python float floor division, twice). -/
def hoursOf (d : ℚ) : ℤ := ⌊(⌊d / 60⌋ : ℚ) / 60⌋

/-- `clip.duration//60 - hours * 60`. -/
def minutesOf (d : ℚ) : ℤ := ⌊d / 60⌋ - hoursOf d * 60

/-- `clip.duration - hours * 60 * 60 - minutes * 60`. -/
def secondsOf (d : ℚ) : ℚ := d - hoursOf d * 60 * 60 - minutesOf d * 60

/-- `f"{hours}H{minutes}::{seconds:.2f}"` — the `duration` field.  `hours`
and `minutes` are integral floats, rendered by Python as e.g. `"1.0"`. -/
def durationHuman (d : ℚ) : String :=
  intFloatStr (hoursOf d) ++ "H" ++ intFloatStr (minutesOf d) ++ "::" ++
    format2 (secondsOf d)

/-- The six base fields of the metadata dict (lines 53-60 of the source),
present for every file before the decoder is consulted. -/
def fileStatFields (fs : FileStatT) : Record :=
  [("filename", .vStr fs.name),
   ("path", .vStr fs.path),
   ("size_B", .vNat fs.sizeB),
   ("size_MB", .vStr (format2 ((fs.sizeB : ℚ) / (1024 * 1024)))),
   ("modified_unix", .vRat fs.mtime),
   ("modified_date", .vStr fs.mdate)]

/-- `get_media_metadata` (lines 44-86): base fields, then either the media
fields extracted from the clip (in dict-literal order) or, when the decoder
raised, a single `'error'` entry holding the exception message. -/
def get_media_metadata (fs : FileStatT) (o : DecodeOutcome) : Record :=
  match o with
  | .failure msg => fileStatFields fs ++ [("error", .vStr msg)]
  | .success c =>
    fileStatFields fs ++
    [("duration_seconds", .vStr (format2 c.duration)),
     ("duration", .vStr (durationHuman c.duration)),
     ("resolution", .vStr (natStr c.width ++ "x" ++ natStr c.height)),
     ("color_space", c.color_space),
     ("fps", .vStr ((c.fps.map format2).getD "N/A")),
     ("codec", .vStr (c.codec.getD "N/A")),
     ("pixel_format", .vStr (c.pixel_format.getD "N/A")),
     ("depth", c.depth.getD (.vStr "N/A")),
     ("rotation", c.rotation.getD (.vStr "N/A")),
     ("bitrate", c.bitrate.getD (.vStr "N/A")),
     ("extra_infos", c.infos.getD (.vStr "N/A"))]

/-- The keys of a record, in insertion order. -/
def keysOf (r : Record) : List String := r.map Prod.fst

/-- The six FileStat keys, in insertion order. -/
def fileStatKeys : List String :=
  ["filename", "path", "size_B", "size_MB", "modified_unix", "modified_date"]

/-- Every key the extraction declares: FileStat keys plus the eleven media
keys, in the dict's insertion order. -/
def declaredKeys : List String :=
  fileStatKeys ++
  ["duration_seconds", "duration", "resolution", "color_space", "fps",
   "codec", "pixel_format", "depth", "rotation", "bitrate", "extra_infos"]

/-- The data row `save_to_excel` (lines 111-127) writes for one record:
the five always-indexed columns use plain dict indexing (`none` = `KeyError`),
the eleven media columns use `.get(key, 'N/A')`. -/
def excelRow (r : Record) : Option (List Value) := do
  let fn ← List.lookup "filename" r
  let p ← List.lookup "path" r
  let sb ← List.lookup "size_B" r
  let smb ← List.lookup "size_MB" r
  let md ← List.lookup "modified_date" r
  pure [fn, p, sb, smb, md,
    (List.lookup "duration_seconds" r).getD (.vStr "N/A"),
    (List.lookup "duration" r).getD (.vStr "N/A"),
    (List.lookup "resolution" r).getD (.vStr "N/A"),
    (List.lookup "fps" r).getD (.vStr "N/A"),
    (List.lookup "codec" r).getD (.vStr "N/A"),
    (List.lookup "pixel_format" r).getD (.vStr "N/A"),
    (List.lookup "depth" r).getD (.vStr "N/A"),
    (List.lookup "rotation" r).getD (.vStr "N/A"),
    (List.lookup "bitrate" r).getD (.vStr "N/A"),
    (List.lookup "color_space" r).getD (.vStr "N/A"),
    (List.lookup "extra_infos" r).getD (.vStr "N/A")]

/-! ## Filesystem model and discovery -/

/-- A directory tree: regular files and directories with children.  Entry
names are the last path component. -/
inductive FSTree where
  | file (name : String)
  | dir (name : String) (children : List FSTree)

/-- One filesystem entry as `Path.rglob` yields it: the components of its
parent directory relative to the scanned root, its own name, and whether it
is a directory. -/
structure Entry where
  parent : List String
  name : String
  isDir : Bool
deriving DecidableEq

mutual

/-- All entries below a node, as CPython 3.11's `Path.rglob('*')` enumerates
them: every descendant — directories included — with no special treatment of
hidden names during descent.  `pre` is the component path from the root. -/
def entriesOf (pre : List String) : FSTree → List Entry
  | .file n => [⟨pre, n, false⟩]
  | .dir n cs => ⟨pre, n, true⟩ :: entriesOfList (pre ++ [n]) cs

/-- `entriesOf`, over a list of siblings. -/
def entriesOfList (pre : List String) : List FSTree → List Entry
  | [] => []
  | t :: ts => entriesOf pre t ++ entriesOfList pre ts

end

/-- `Path.suffix`: the last dot-extension of the own name — empty when there
is no dot, when the only dot leads (hidden-style names), or when the dot is
final. -/
def pySuffix (name : String) : String :=
  let cs := name.data
  let ext := cs.reverse.takeWhile (fun c => c != '.')
  if 1 ≤ ext.length ∧ ext.length + 1 < cs.length then ⟨'.' :: ext.reverse⟩ else ""

/-- Python `str.lower` (ASCII case folding suffices for the extensions used). -/
def strLower (s : String) : String := ⟨s.data.map Char.toLower⟩

/-- `MEDIA_EXTENSIONS` (line 42 of the source). -/
def MEDIA_EXTENSIONS : List String :=
  [".mp3", ".mp4", ".avi", ".mkv", ".mov", ".wav", ".flac", ".m4a", ".aac"]

/-- Python's `name.startswith('.')`. -/
def startsWithDot (s : String) : Bool :=
  match s.data with
  | [] => false
  | c :: _ => c == '.'

/-- The discovery filter (lines 154-157): lowercased suffix in the allow-list
and own name not starting with `'.'`.  It inspects only the entry's own name. -/
def mediaSelect (e : Entry) : Bool :=
  MEDIA_EXTENSIONS.contains (strLower (pySuffix e.name)) &&
    !(startsWithDot e.name)

/-- `media_files`: the list-comprehension over `rglob('*')`. -/
def mediaFilesOf (roots : List FSTree) : List Entry :=
  (entriesOfList [] roots).filter mediaSelect

example : pySuffix "a.MP3" = ".MP3" := by decide
example : strLower ".MP3" = ".mp3" := by decide
example : pySuffix ".hidden" = "" := by decide
example : pySuffix "foo." = "" := by decide
example : pySuffix "a.tar.gz" = ".gz" := by decide
example :
    mediaFilesOf [.dir ".hid" [.file "song.mp3"], .file ".x.mp3", .file "ok.mp3"]
      = [⟨[".hid"], "song.mp3", false⟩, ⟨[], "ok.mp3", false⟩] := by decide

/-! ## Batch models -/

/-- One discovered file together with what the environment does for it:
its stat facts and the decoder's outcome. -/
structure MediaJob where
  fs : FileStatT
  outcome : DecodeOutcome
deriving DecidableEq

/-- The extraction loop of `process_directory` (lines 164-168): one record
appended per discovered file, in order, no early exit. -/
def metadataListOf (jobs : List MediaJob) : List Record :=
  jobs.map (fun j => get_media_metadata j.fs j.outcome)

/-- The root argument of `process_directory`: missing, an existing
non-directory, or a directory with its children. -/
inductive Root where
  | missing
  | plainFile (name : String)
  | directory (children : List FSTree)

/-- Batch-level outcome of `process_directory` (lines 144-172):
`FileNotFoundError` when the root does not exist, `ValueError` when
discovery finds nothing, otherwise the record list (which is then written
to the spreadsheet).  No extraction happens and no output file is written
in the two error cases.  On an existing non-directory root,
`Path.rglob('*')` yields nothing (CPython 3.11), so the `ValueError`
branch is taken. -/
inductive PDResult where
  | fileNotFoundError
  | valueErrorNoMedia
  | ok (records : List Record)
deriving DecidableEq

/-- `process_directory`, with the per-file environment given by `statOf` and
`decodeOf`. -/
def process_directory (root : Root)
    (statOf : Entry → FileStatT) (decodeOf : Entry → DecodeOutcome) : PDResult :=
  match root with
  | .missing => .fileNotFoundError
  | .plainFile _ => .valueErrorNoMedia
  | .directory cs =>
    let files := mediaFilesOf cs
    if files.isEmpty then .valueErrorNoMedia
    else .ok (files.map (fun e => get_media_metadata (statOf e) (decodeOf e)))

/-- Result of the GUI worker `process_folder` (lines 383-424): the records
accumulated, whether the cancellation log line was emitted, whether the
spreadsheet was written, and the title of the final dialog. -/
structure RunResult where
  records : List Record
  cancelledLogged : Bool
  saved : Bool
  finalDialog : String
deriving DecidableEq

/-- The worker loop (lines 400-411): before each file the shared
`cancel_requested` flag is read; `cancel n` is the value read at the `n`-th
file boundary (the tail recursion shifts the oracle).  A `true` read breaks
out before the file is processed. -/
def runLoop : List MediaJob → (Nat → Bool) → List Record × Bool
  | [], _ => ([], false)
  | j :: rest, cancel =>
    if cancel 0 then ([], true)
    else
      let p := runLoop rest (fun n => cancel (n + 1))
      (get_media_metadata j.fs j.outcome :: p.1, p.2)

/-- `process_folder` on an already-discovered file list: after the loop —
cancelled or not — the spreadsheet is saved and the `"Complete"` info box
(`"Metadata extraction finished!"`) is shown. -/
def process_folder (jobs : List MediaJob) (cancel : Nat → Bool) : RunResult :=
  let p := runLoop jobs cancel
  { records := p.1
    cancelledLogged := p.2
    saved := true
    finalDialog := "Complete" }

/-! ## Model of `src/convert.py` -/

/-- A JSON metadata record, projected onto the two fields the grouping
conversion reads (`item['path']` for grouping, `item['filename']` for
sorting); the remaining fields ride along unexamined in the real rows. -/
structure ConvRec where
  filename : String
  path : String
deriving DecidableEq

/-- Split a character list at every `'/'`. -/
def splitOnSlash (cs : List Char) : List (List Char) :=
  cs.foldr
    (fun c acc =>
      match acc with
      | [] => [[c]]
      | g :: gs => if c = '/' then [] :: g :: gs else (c :: g) :: gs)
    [[]]

/-- `str(Path(p).parent)` for the normalized slash-separated paths produced
by `str(file_path)`: drop the last component; a bare name yields `"."`, a
top-level absolute path yields `"/"`. -/
def parentStr (p : String) : String :=
  match splitOnSlash p.data with
  | [] => "."
  | [_] => "."
  | ps =>
      let ini := ps.dropLast
      if ini = [[]] then "/" else ⟨List.intercalate ['/'] ini⟩

example : parentStr "a/b/c.mp3" = "a/b" := by decide
example : parentStr "c.mp3" = "." := by decide
example : parentStr "/c.mp3" = "/" := by decide
example : parentStr "/a/b.mp3" = "/a" := by decide

/-- Append a record to its folder's group, keeping first-seen folder order
(the insertion-ordered `defaultdict` of `group_by_folder`). -/
def addToGroup : List (String × List ConvRec) → String → ConvRec →
    List (String × List ConvRec)
  | [], k, r => [(k, [r])]
  | (k', rs) :: t, k, r =>
    if k' = k then (k', rs ++ [r]) :: t else (k', rs) :: addToGroup t k r

/-- The grouping pass of `group_by_folder` (lines 9-12). -/
def groupPairs (data : List ConvRec) : List (String × List ConvRec) :=
  data.foldl (fun g r => addToGroup g (parentStr r.path) r) []

/-- The sort key of `group_by_folder` (line 16): ascending file name. -/
def byFilename (a b : ConvRec) : Prop := a.filename ≤ b.filename

instance : DecidableRel byFilename :=
  fun a b => inferInstanceAs (Decidable (a.filename ≤ b.filename))

instance : IsTotal ConvRec byFilename :=
  ⟨fun a b => le_total a.filename b.filename⟩

instance : IsTrans ConvRec byFilename :=
  ⟨fun _ _ _ hab hbc => le_trans hab hbc⟩

/-- `group_by_folder` (lines 7-18): group by `Path(item['path']).parent`,
then stably sort each group by file name (Python `list.sort`, modelled by
stable insertion sort). -/
def group_by_folder (data : List ConvRec) : List (String × List ConvRec) :=
  (groupPairs data).map (fun pr => (pr.1, List.insertionSort byFilename pr.2))

/-- The sheet-name mapping of `create_sheet` (line 23): replace `'/'` by
`'__'`, truncate to 31 characters. -/
def sheetTitle (folder : String) : String :=
  ⟨(List.flatten (folder.data.map (fun c => if c = '/' then ['_', '_'] else [c]))).take 31⟩

/-- One produced worksheet: its title and its data rows in order. -/
structure Sheet where
  title : String
  rows : List ConvRec
deriving DecidableEq

/-- `convert_json_to_excel` (lines 69-88): after removing the default sheet,
one `create_sheet` call per folder group, in group order. -/
def convert_json_to_excel (data : List ConvRec) : List Sheet :=
  (group_by_folder data).map (fun pr => ⟨sheetTitle pr.1, pr.2⟩)

example : sheetTitle "a/b" = "a__b" := by decide

/-! ## Claims C1, C6: record shape of the per-file extraction -/

/-- C1 (counterexample): when media extraction fails, the record returned by
`get_media_metadata` does NOT contain every declared output field key —
`'duration_seconds'` is a declared key, yet it is absent from the record of a
file whose decode failed.  The `'N/A'` fill-in happens only in the
spreadsheet writer, not in the record. -/
theorem c1_counterexample :
    "duration_seconds" ∈ declaredKeys ∧
    List.lookup "duration_seconds"
      (get_media_metadata ⟨"b.mp4", "root/b.mp4", 5, 0, "1970-01-01 00:00:00"⟩
        (.failure "decode error")) = none := by
  exact ⟨by decide, rfl⟩

/-- C1 (amended): on a successful decode the record's key set is exactly the
declared keys (attributes the clip lacks appear with value `'N/A'`); on a
decode failure the record carries exactly the FileStat keys plus `'error'`,
and the spreadsheet writer supplies `'N/A'` for the eleven missing media
columns via defaulted lookup, so the output row still has all 16 columns. -/
theorem c1_record_keys (fs : FileStatT) (c : ClipInfo) (msg : String) :
    keysOf (get_media_metadata fs (.success c)) = declaredKeys ∧
    keysOf (get_media_metadata fs (.failure msg)) = fileStatKeys ++ ["error"] ∧
    excelRow (get_media_metadata fs (.failure msg)) =
      some [.vStr fs.name, .vStr fs.path, .vNat fs.sizeB,
            .vStr (format2 ((fs.sizeB : ℚ) / (1024 * 1024))), .vStr fs.mdate,
            .vStr "N/A", .vStr "N/A", .vStr "N/A", .vStr "N/A", .vStr "N/A",
            .vStr "N/A", .vStr "N/A", .vStr "N/A", .vStr "N/A", .vStr "N/A",
            .vStr "N/A"] := by
  exact ⟨rfl, rfl, rfl⟩

/-- C6: `get_media_metadata` is total — for every stat outcome and every
decoder outcome it returns a record whose FileStat fields are always present,
and a decoder failure is captured as the `'error'` entry of the record rather
than escaping. -/
theorem c6_no_exception_escapes (fs : FileStatT) (o : DecodeOutcome) :
    List.lookup "filename" (get_media_metadata fs o) = some (.vStr fs.name) ∧
    List.lookup "path" (get_media_metadata fs o) = some (.vStr fs.path) ∧
    List.lookup "size_B" (get_media_metadata fs o) = some (.vNat fs.sizeB) ∧
    List.lookup "size_MB" (get_media_metadata fs o)
      = some (.vStr (format2 ((fs.sizeB : ℚ) / (1024 * 1024)))) ∧
    List.lookup "modified_unix" (get_media_metadata fs o) = some (.vRat fs.mtime) ∧
    List.lookup "modified_date" (get_media_metadata fs o) = some (.vStr fs.mdate) ∧
    (match o with
     | .failure m => List.lookup "error" (get_media_metadata fs o) = some (.vStr m)
     | .success _ => List.lookup "error" (get_media_metadata fs o) = none) := by
  cases o <;> exact ⟨rfl, rfl, rfl, rfl, rfl, rfl, rfl⟩

/-! ## Claim C2: decode failure does not abort the batch -/

/-- C2: if the `i`-th discovered file's decode fails, its record still carries
all FileStat keys plus the captured `'error'`, and the batch loop of
`process_directory` produces exactly one record per discovered file — every
other file, later ones included, is still processed. -/
theorem c2_fault_isolation (jobs : List MediaJob) (i : Nat) (j : MediaJob)
    (msg : String) (hget : jobs[i]? = some j)
    (hfail : j.outcome = .failure msg) :
    (metadataListOf jobs).length = jobs.length ∧
    (metadataListOf jobs)[i]? = some (get_media_metadata j.fs (.failure msg)) ∧
    keysOf (get_media_metadata j.fs (.failure msg)) = fileStatKeys ++ ["error"] ∧
    List.lookup "error" (get_media_metadata j.fs (.failure msg))
      = some (.vStr msg) ∧
    (∀ k, k < jobs.length → ∃ jk, jobs[k]? = some jk ∧
      (metadataListOf jobs)[k]? = some (get_media_metadata jk.fs jk.outcome)) := by
  refine ⟨by simp [metadataListOf], ?_, rfl, rfl, ?_⟩
  · simp [metadataListOf, hget, hfail]
  · intro k hk
    have hsome : ∃ jk, jobs[k]? = some jk := by
      cases hjk : jobs[k]? with
      | none => exact absurd (List.getElem?_eq_none_iff.mp hjk) (by omega)
      | some jk => exact ⟨jk, rfl⟩
    obtain ⟨jk, hjk⟩ := hsome
    exact ⟨jk, hjk, by simp [metadataListOf, hjk]⟩

/-- C2 witness at a concrete two-file batch whose first file fails. -/
theorem c2_fault_isolation_witness :
    (metadataListOf
      [⟨⟨"a.mp4", "r/a.mp4", 5, 0, "d"⟩, .failure "boom"⟩,
       ⟨⟨"b.mp3", "r/b.mp3", 6, 0, "d"⟩,
        .success ⟨7, 640, 480, .vStr "bt709", some 25, some "h264",
          some "yuv420p", some (.vNat 8), some (.vNat 0), some (.vNat 9),
          some (.vStr "i")⟩⟩]).length = 2 :=
  (c2_fault_isolation
    [⟨⟨"a.mp4", "r/a.mp4", 5, 0, "d"⟩, .failure "boom"⟩,
     ⟨⟨"b.mp3", "r/b.mp3", 6, 0, "d"⟩,
      .success ⟨7, 640, 480, .vStr "bt709", some 25, some "h264",
        some "yuv420p", some (.vNat 8), some (.vNat 0), some (.vNat 9),
        some (.vStr "i")⟩⟩]
    0 ⟨⟨"a.mp4", "r/a.mp4", 5, 0, "d"⟩, .failure "boom"⟩ "boom" rfl rfl).1

/-! ## Claim C8: numeric formatting -/

/-- The seconds piece of the duration string equals sixty times the
fractional part of `d / 60`. -/
theorem secondsOf_eq_fract (d : ℚ) : secondsOf d = 60 * Int.fract (d / 60) := by
  unfold secondsOf minutesOf Int.fract
  push_cast
  ring

theorem secondsOf_nonneg (d : ℚ) : 0 ≤ secondsOf d := by
  rw [secondsOf_eq_fract]
  have := Int.fract_nonneg (d / 60)
  linarith

theorem secondsOf_lt_sixty (d : ℚ) : secondsOf d < 60 := by
  rw [secondsOf_eq_fract]
  have := Int.fract_lt_one (d / 60)
  linarith

theorem minutesOf_nonneg (d : ℚ) : 0 ≤ minutesOf d := by
  unfold minutesOf hoursOf
  have hfl : ((⌊(⌊d / 60⌋ : ℚ) / 60⌋ : ℤ) : ℚ) ≤ (⌊d / 60⌋ : ℚ) / 60 :=
    Int.floor_le _
  have h60 : ((⌊(⌊d / 60⌋ : ℚ) / 60⌋ : ℤ) : ℚ) * 60 ≤ (⌊d / 60⌋ : ℚ) := by
    have := (le_div_iff₀ (by norm_num : (0 : ℚ) < 60)).mp hfl
    linarith
  have : (⌊(⌊d / 60⌋ : ℚ) / 60⌋ : ℤ) * 60 ≤ ⌊d / 60⌋ := by exact_mod_cast h60
  omega

theorem minutesOf_lt_sixty (d : ℚ) : minutesOf d < 60 := by
  unfold minutesOf hoursOf
  have hfu : (⌊d / 60⌋ : ℚ) / 60 < (⌊(⌊d / 60⌋ : ℚ) / 60⌋ : ℤ) + 1 :=
    Int.lt_floor_add_one _
  have h60 : (⌊d / 60⌋ : ℚ) < ((⌊(⌊d / 60⌋ : ℚ) / 60⌋ : ℤ) + 1) * 60 := by
    have := (div_lt_iff₀ (by norm_num : (0 : ℚ) < 60)).mp hfu
    linarith
  have : (⌊d / 60⌋ : ℤ) < (⌊(⌊d / 60⌋ : ℚ) / 60⌋ + 1) * 60 := by exact_mod_cast h60
  omega

/-- The duration decomposes exactly into the rendered hours, minutes and
seconds. -/
theorem duration_decomposition (d : ℚ) :
    d = 3600 * (hoursOf d : ℚ) + 60 * (minutesOf d : ℚ) + secondsOf d := by
  unfold secondsOf
  ring

/-- C8: the successful record renders the duration in seconds with exactly
two decimal digits, renders it again as an `H`/`M`/`S.ss` composition whose
minute and second components lie in `[0, 60)` and whose seconds carry exactly
two decimal digits, and reports the size both as raw bytes and as binary
megabytes (divisor `1024 * 1024`) with exactly two decimal digits. -/
theorem c8_numeric_formatting (fs : FileStatT) (c : ClipInfo) :
    List.lookup "duration_seconds" (get_media_metadata fs (.success c))
      = some (.vStr (format2 c.duration)) ∧
    decimalsOf (format2 c.duration) = some 2 ∧
    List.lookup "duration" (get_media_metadata fs (.success c))
      = some (.vStr (intFloatStr (hoursOf c.duration) ++ "H" ++
          intFloatStr (minutesOf c.duration) ++ "::" ++
          format2 (secondsOf c.duration))) ∧
    c.duration = 3600 * (hoursOf c.duration : ℚ)
      + 60 * (minutesOf c.duration : ℚ) + secondsOf c.duration ∧
    0 ≤ minutesOf c.duration ∧ minutesOf c.duration < 60 ∧
    0 ≤ secondsOf c.duration ∧ secondsOf c.duration < 60 ∧
    decimalsOf (format2 (secondsOf c.duration)) = some 2 ∧
    List.lookup "size_B" (get_media_metadata fs (.success c))
      = some (.vNat fs.sizeB) ∧
    List.lookup "size_MB" (get_media_metadata fs (.success c))
      = some (.vStr (format2 ((fs.sizeB : ℚ) / (1024 * 1024)))) ∧
    decimalsOf (format2 ((fs.sizeB : ℚ) / (1024 * 1024))) = some 2 := by
  exact ⟨rfl, decimalsOf_format2 _, rfl, duration_decomposition _,
    minutesOf_nonneg _, minutesOf_lt_sixty _, secondsOf_nonneg _,
    secondsOf_lt_sixty _, decimalsOf_format2 _, rfl, rfl, decimalsOf_format2 _⟩

/-! ## Claims C3, C9: discovery -/

/-- C3 (counterexample): discovery is NOT the predicate-filtered set of
*files*: a directory named `d.mp3` is yielded by `rglob('*')`, passes the
suffix/hidden filter, and is discovered, although it is not a file. -/
theorem c3_counterexample :
    (⟨[], "d.mp3", true⟩ : Entry) ∈ mediaFilesOf [.dir "d.mp3" []] ∧
    (⟨[], "d.mp3", true⟩ : Entry) ∉
      (entriesOfList [] [.dir "d.mp3" []]).filter
        (fun e => !e.isDir && mediaSelect e) := by
  exact ⟨by decide, by decide⟩

/-- C3 (amended): discovery returns exactly the *entries* (files and
directories alike) reachable by recursive descent from the root whose
lowercased extension is in the allow-list and whose own name does not start
with `'.'` — and nothing else. -/
theorem c3_discovery_characterization (roots : List FSTree) (e : Entry) :
    e ∈ mediaFilesOf roots ↔
      e ∈ entriesOfList [] roots ∧
        MEDIA_EXTENSIONS.contains (strLower (pySuffix e.name)) = true ∧
        startsWithDot e.name = false := by
  simp [mediaFilesOf, List.mem_filter, mediaSelect, Bool.and_eq_true,
    Bool.not_eq_true', and_assoc]

/-- C3 witness: a plain matching file at the root is discovered. -/
theorem c3_discovery_characterization_witness :
    (⟨[], "ok.mp3", false⟩ : Entry) ∈ mediaFilesOf [.file "ok.mp3"] :=
  (c3_discovery_characterization [.file "ok.mp3"] ⟨[], "ok.mp3", false⟩).mpr
    ⟨by decide, by decide, by decide⟩

/-- C9: the hidden-entry exclusion tests only the entry's own name.  Any
reachable entry with an allowed suffix and a non-dot name is discovered,
even when an ancestor directory under the root is hidden — traversal
descends into hidden directories. -/
theorem c9_hidden_ancestors_descended (roots : List FSTree) (e : Entry)
    (_hanc : ∃ a ∈ e.parent, startsWithDot a = true)
    (hmem : e ∈ entriesOfList [] roots)
    (hsuf : MEDIA_EXTENSIONS.contains (strLower (pySuffix e.name)) = true)
    (hname : startsWithDot e.name = false) :
    e ∈ mediaFilesOf roots := by
  rw [mediaFilesOf, List.mem_filter]
  refine ⟨hmem, ?_⟩
  simp only [mediaSelect, Bool.and_eq_true, Bool.not_eq_true']
  exact ⟨hsuf, hname⟩

/-- C9 witness: `song.mp3` inside the hidden directory `.hid` is discovered. -/
theorem c9_hidden_ancestors_descended_witness :
    (⟨[".hid"], "song.mp3", false⟩ : Entry) ∈
      mediaFilesOf [.dir ".hid" [.file "song.mp3"]] :=
  c9_hidden_ancestors_descended [.dir ".hid" [.file "song.mp3"]]
    ⟨[".hid"], "song.mp3", false⟩
    ⟨".hid", by decide, by decide⟩ (by decide) (by decide) (by decide)

/-! ## Claim C4: batch-level error conditions -/

/-- C4 (counterexample): a root that exists but is not a directory is NOT
reported by a distinguishable not-a-directory condition: `rglob('*')` on it
yields nothing, so `process_directory` raises the very same
no-media-files `ValueError` as an empty directory. -/
theorem c4_counterexample :
    process_directory (.plainFile "movie.bin") (fun _ => ⟨"", "", 0, 0, ""⟩)
        (fun _ => .failure "e")
      = process_directory (.directory []) (fun _ => ⟨"", "", 0, 0, ""⟩)
        (fun _ => .failure "e") ∧
    process_directory (.plainFile "movie.bin") (fun _ => ⟨"", "", 0, 0, ""⟩)
        (fun _ => .failure "e") = .valueErrorNoMedia := by
  exact ⟨rfl, rfl⟩

/-- C4 (amended): a missing root fails with `FileNotFoundError` and any root
yielding zero discovered files — an empty tree or an existing non-directory —
fails with the no-media `ValueError`; the two conditions are distinguishable
from each other, and in every error case no record is produced (no extraction
is attempted and no output file is written). -/
theorem c4_batch_errors (name : String) (cs : List FSTree)
    (statOf : Entry → FileStatT) (decodeOf : Entry → DecodeOutcome)
    (hempty : mediaFilesOf cs = []) :
    process_directory .missing statOf decodeOf = .fileNotFoundError ∧
    process_directory (.plainFile name) statOf decodeOf = .valueErrorNoMedia ∧
    process_directory (.directory cs) statOf decodeOf = .valueErrorNoMedia ∧
    PDResult.fileNotFoundError ≠ PDResult.valueErrorNoMedia ∧
    (∀ recs, process_directory .missing statOf decodeOf ≠ .ok recs) ∧
    (∀ recs, process_directory (.plainFile name) statOf decodeOf ≠ .ok recs) ∧
    (∀ recs, process_directory (.directory cs) statOf decodeOf ≠ .ok recs) := by
  have h3 : process_directory (.directory cs) statOf decodeOf
      = .valueErrorNoMedia := by
    simp [process_directory, hempty]
  refine ⟨rfl, rfl, h3, by decide, ?_, ?_, ?_⟩
  · intro recs
    simp [process_directory]
  · intro recs
    simp [process_directory]
  · intro recs
    rw [h3]
    simp

/-! ## Claim C5: cooperative cancellation -/

/-- The worker loop stops exactly at a file boundary: there is a cut point
`k` such that the records are precisely the full records of the first `k`
files, the flag read `false` at every earlier boundary, a cancelled loop read
`true` at boundary `k`, and an uncancelled loop consumed every file. -/
theorem runLoop_spec (jobs : List MediaJob) (cancel : Nat → Bool) :
    ∃ k, k ≤ jobs.length ∧
      (runLoop jobs cancel).1
        = (jobs.take k).map (fun j => get_media_metadata j.fs j.outcome) ∧
      (∀ i, i < k → cancel i = false) ∧
      ((runLoop jobs cancel).2 = true → cancel k = true) ∧
      ((runLoop jobs cancel).2 = false → k = jobs.length) := by
  induction jobs generalizing cancel with
  | nil => exact ⟨0, by simp [runLoop]⟩
  | cons j rest ih =>
    by_cases h0 : cancel 0 = true
    · refine ⟨0, by omega, ?_, ?_, ?_, ?_⟩
      · simp [runLoop, h0]
      · omega
      · intro _; exact h0
      · intro hf
        rw [runLoop] at hf
        simp [h0] at hf
    · have h0' : cancel 0 = false := by
        cases hcv : cancel 0
        · rfl
        · exact absurd hcv h0
      obtain ⟨k, hk, hrec, hlt, hct, hcf⟩ := ih (fun n => cancel (n + 1))
      refine ⟨k + 1, by simp; omega, ?_, ?_, ?_, ?_⟩
      · simp only [runLoop, h0', Bool.false_eq_true, if_false, List.take_succ_cons,
          List.map_cons]
        rw [hrec]
      · intro i hi
        cases i with
        | zero => exact h0'
        | succ i => exact hlt i (by omega)
      · intro hsnd
        apply hct
        rw [runLoop] at hsnd
        simpa [h0'] using hsnd
      · intro hsnd
        rw [runLoop] at hsnd
        simp only [h0', Bool.false_eq_true, if_false] at hsnd
        simp [hcf hsnd]

/-- C5 (counterexample): a run that was cancelled after its first file still
saves the spreadsheet and still shows the `"Complete"` /
`"Metadata extraction finished!"` dialog — the returned result is not marked
as cancelled rather than complete (only a log line mentions cancellation). -/
theorem c5_counterexample :
    (process_folder
      [⟨⟨"a.mp3", "r/a.mp3", 1, 0, "d"⟩, .failure "e1"⟩,
       ⟨⟨"b.mp4", "r/b.mp4", 2, 0, "d"⟩, .failure "e2"⟩]
      (fun i => decide (1 ≤ i))).cancelledLogged = true ∧
    (process_folder
      [⟨⟨"a.mp3", "r/a.mp3", 1, 0, "d"⟩, .failure "e1"⟩,
       ⟨⟨"b.mp4", "r/b.mp4", 2, 0, "d"⟩, .failure "e2"⟩]
      (fun i => decide (1 ≤ i))).records.length = 1 ∧
    (process_folder
      [⟨⟨"a.mp3", "r/a.mp3", 1, 0, "d"⟩, .failure "e1"⟩,
       ⟨⟨"b.mp4", "r/b.mp4", 2, 0, "d"⟩, .failure "e2"⟩]
      (fun i => decide (1 ≤ i))).saved = true ∧
    (process_folder
      [⟨⟨"a.mp3", "r/a.mp3", 1, 0, "d"⟩, .failure "e1"⟩,
       ⟨⟨"b.mp4", "r/b.mp4", 2, 0, "d"⟩, .failure "e2"⟩]
      (fun i => decide (1 ≤ i))).finalDialog = "Complete" := by
  exact ⟨rfl, rfl, rfl, rfl⟩

/-- C5 (amended): the cancellation flag is read only at file boundaries; the
run stops at such a boundary, with the accumulated records being exactly the
complete records of an initial segment of the discovered files (hence no
partial per-file record and a count at most the number discovered), and a
cancellation log line is emitted — but the result is not marked cancelled:
the spreadsheet is still saved and the final dialog still reports
completion. -/
theorem c5_cancellation (jobs : List MediaJob) (cancel : Nat → Bool) :
    ∃ k, k ≤ jobs.length ∧
      (process_folder jobs cancel).records
        = (jobs.take k).map (fun j => get_media_metadata j.fs j.outcome) ∧
      (∀ i, i < k → cancel i = false) ∧
      ((process_folder jobs cancel).cancelledLogged = true → cancel k = true) ∧
      ((process_folder jobs cancel).cancelledLogged = false →
        k = jobs.length) ∧
      (process_folder jobs cancel).records.length ≤ jobs.length ∧
      (process_folder jobs cancel).saved = true ∧
      (process_folder jobs cancel).finalDialog = "Complete" := by
  obtain ⟨k, hk, hrec, hlt, hct, hcf⟩ := runLoop_spec jobs cancel
  refine ⟨k, hk, hrec, hlt, hct, hcf, ?_, rfl, rfl⟩
  show (runLoop jobs cancel).1.length ≤ jobs.length
  rw [hrec]
  simp only [List.length_map, List.length_take]
  omega

/-- C5 amended-claim witness at a concrete cancelled two-file run. -/
theorem c5_cancellation_witness :
    (process_folder
      [⟨⟨"a.mp3", "r/a.mp3", 1, 0, "d"⟩, .failure "e1"⟩,
       ⟨⟨"b.mp4", "r/b.mp4", 2, 0, "d"⟩, .failure "e2"⟩]
      (fun i => decide (2 ≤ i))).finalDialog = "Complete" := by
  obtain ⟨k, -, -, -, -, -, -, -, hdlg⟩ :=
    c5_cancellation
      [⟨⟨"a.mp3", "r/a.mp3", 1, 0, "d"⟩, .failure "e1"⟩,
       ⟨⟨"b.mp4", "r/b.mp4", 2, 0, "d"⟩, .failure "e2"⟩]
      (fun i => decide (2 ≤ i))
  exact hdlg

/-! ## Claim C7: grouping conversion -/

/-- Keys of a group list, in first-seen order. -/
def keysG (g : List (String × List ConvRec)) : List String := g.map Prod.fst

theorem keysG_addToGroup_mem (g : List (String × List ConvRec)) (k : String)
    (r : ConvRec) (h : k ∈ keysG g) :
    keysG (addToGroup g k r) = keysG g := by
  induction g with
  | nil => simp [keysG] at h
  | cons p t ih =>
    obtain ⟨k', rs⟩ := p
    by_cases hkk : k' = k
    · subst hkk
      simp [addToGroup, keysG]
    · have h' : k ∈ keysG t := by
        rcases List.mem_cons.mp h with h | h
        · exact absurd h.symm hkk
        · exact h
      simp only [addToGroup, if_neg hkk, keysG, List.map_cons]
      exact congrArg (fun l => k' :: l) (ih h')

theorem keysG_addToGroup_not_mem (g : List (String × List ConvRec)) (k : String)
    (r : ConvRec) (h : k ∉ keysG g) :
    keysG (addToGroup g k r) = keysG g ++ [k] := by
  induction g with
  | nil => simp [addToGroup, keysG]
  | cons p t ih =>
    obtain ⟨k', rs⟩ := p
    have hkk : k' ≠ k := fun hc => h (List.mem_cons.mpr (Or.inl hc.symm))
    have h' : k ∉ keysG t := fun hc => h (List.mem_cons.mpr (Or.inr hc))
    simp only [addToGroup, if_neg hkk, keysG, List.map_cons, List.cons_append]
    exact congrArg (fun l => k' :: l) (ih h')

theorem mem_keysG_addToGroup (g : List (String × List ConvRec))
    (k' k : String) (r : ConvRec) :
    k' ∈ keysG (addToGroup g k r) ↔ k' ∈ keysG g ∨ k' = k := by
  by_cases hm : k ∈ keysG g
  · rw [keysG_addToGroup_mem g k r hm]
    constructor
    · exact Or.inl
    · rintro (h | rfl)
      · exact h
      · exact hm
  · rw [keysG_addToGroup_not_mem g k r hm]
    simp

theorem nodup_keysG_addToGroup (g : List (String × List ConvRec)) (k : String)
    (r : ConvRec) (h : (keysG g).Nodup) : (keysG (addToGroup g k r)).Nodup := by
  by_cases hm : k ∈ keysG g
  · rwa [keysG_addToGroup_mem g k r hm]
  · rw [keysG_addToGroup_not_mem g k r hm]
    rw [List.nodup_append]
    exact ⟨h, List.nodup_singleton k, by simpa using hm⟩

theorem lookup_addToGroup_self (g : List (String × List ConvRec)) (k : String)
    (r : ConvRec) :
    List.lookup k (addToGroup g k r)
      = some (((List.lookup k g).getD []) ++ [r]) := by
  induction g with
  | nil => simp [addToGroup, List.lookup]
  | cons p t ih =>
    obtain ⟨k', rs⟩ := p
    by_cases hkk : k' = k
    · subst hkk
      simp [addToGroup, List.lookup]
    · have hbeq : (k == k') = false := by
        simp [beq_eq_false_iff_ne, Ne.symm hkk]
      simp [addToGroup, hkk, List.lookup, hbeq, ih]

theorem lookup_addToGroup_ne (g : List (String × List ConvRec))
    (k' k : String) (r : ConvRec) (hne : k' ≠ k) :
    List.lookup k' (addToGroup g k r) = List.lookup k' g := by
  induction g with
  | nil =>
    have hbeq : (k' == k) = false := by simp [beq_eq_false_iff_ne, hne]
    simp [addToGroup, List.lookup, hbeq]
  | cons p t ih =>
    obtain ⟨k0, rs⟩ := p
    by_cases hk0 : k0 = k
    · subst hk0
      have hbeq : (k' == k0) = false := by simp [beq_eq_false_iff_ne, hne]
      simp [addToGroup, List.lookup, hbeq]
    · by_cases hk0' : k' = k0
      · subst hk0'
        simp [addToGroup, hk0, List.lookup]
      · have hbeq : (k' == k0) = false := by simp [beq_eq_false_iff_ne, hk0']
        simp [addToGroup, hk0, List.lookup, hbeq, ih]

/-- Folding the grouping step preserves group membership and files already
in the accumulator, and places every record of the remaining data into the
group of its parent folder. -/
theorem lookup_groupFold (data : List ConvRec) :
    ∀ (g : List (String × List ConvRec)) (k : String) (r : ConvRec),
      ((∃ rs, List.lookup k g = some rs ∧ r ∈ rs) ∨
        (r ∈ data ∧ parentStr r.path = k)) →
      ∃ rs, List.lookup k
          (data.foldl (fun g r => addToGroup g (parentStr r.path) r) g)
        = some rs ∧ r ∈ rs := by
  induction data with
  | nil =>
    intro g k r h
    rcases h with h | ⟨hmem, -⟩
    · exact h
    · simp at hmem
  | cons x xs ih =>
    intro g k r h
    simp only [List.foldl_cons]
    apply ih
    rcases h with ⟨rs, hl, hr⟩ | ⟨hmem, hk⟩
    · left
      by_cases hx : parentStr x.path = k
      · refine ⟨rs ++ [x], ?_, by simp [hr]⟩
        rw [hx, lookup_addToGroup_self, hl]
        rfl
      · exact ⟨rs, (lookup_addToGroup_ne g k (parentStr x.path) x
          (Ne.symm hx)).trans hl, hr⟩
    · rcases List.mem_cons.mp hmem with rfl | hxs
      · left
        refine ⟨(List.lookup k g).getD [] ++ [r], ?_, by simp⟩
        rw [← hk, lookup_addToGroup_self]
      · right
        exact ⟨hxs, hk⟩

theorem mem_keysG_groupFold (data : List ConvRec) :
    ∀ (g : List (String × List ConvRec)) (p : String),
      p ∈ keysG (data.foldl (fun g r => addToGroup g (parentStr r.path) r) g) ↔
        p ∈ keysG g ∨ p ∈ data.map (fun r => parentStr r.path) := by
  induction data with
  | nil => intro g p; simp
  | cons x xs ih =>
    intro g p
    simp only [List.foldl_cons, List.map_cons, List.mem_cons]
    rw [ih, mem_keysG_addToGroup]
    tauto

theorem nodup_keysG_groupFold (data : List ConvRec) :
    ∀ (g : List (String × List ConvRec)), (keysG g).Nodup →
      (keysG (data.foldl (fun g r => addToGroup g (parentStr r.path) r) g)).Nodup := by
  induction data with
  | nil => intro g h; exact h
  | cons x xs ih =>
    intro g h
    simp only [List.foldl_cons]
    exact ih _ (nodup_keysG_addToGroup g _ x h)

theorem keysG_group_by_folder (data : List ConvRec) :
    keysG (group_by_folder data) = keysG (groupPairs data) := by
  simp [group_by_folder, keysG, List.map_map, Function.comp]

theorem lookup_map_sortGroups (g : List (String × List ConvRec)) (k : String) :
    List.lookup k
        (g.map (fun pr => (pr.1, List.insertionSort byFilename pr.2)))
      = (List.lookup k g).map (List.insertionSort byFilename) := by
  induction g with
  | nil => simp [List.lookup]
  | cons p t ih =>
    obtain ⟨k0, rs⟩ := p
    by_cases h : k = k0
    · subst h
      simp [List.lookup]
    · have hbeq : (k == k0) = false := by simp [beq_eq_false_iff_ne, h]
      simp [List.lookup, hbeq, ih]

/-- C7: the JSON-to-spreadsheet conversion groups records by containing
directory: group keys are exactly the distinct parent folders (no
duplicates), one sheet is created per group with title
`sheetTitle` (separator replacement + 31-character truncation) and the
group's rows, each group is sorted by file name, and any two records sharing
a parent folder land in the one group — hence in one common sheet. -/
theorem c7_grouping_conversion (data : List ConvRec) :
    (keysG (group_by_folder data)).Nodup ∧
    (∀ p, p ∈ keysG (group_by_folder data) ↔
      p ∈ data.map (fun r => parentStr r.path)) ∧
    (convert_json_to_excel data).map Sheet.title
      = (group_by_folder data).map (fun pr => sheetTitle pr.1) ∧
    (convert_json_to_excel data).map Sheet.rows
      = (group_by_folder data).map Prod.snd ∧
    (∀ pr ∈ group_by_folder data, pr.2.Sorted byFilename) ∧
    (∀ r1 r2, r1 ∈ data → r2 ∈ data →
      parentStr r1.path = parentStr r2.path →
      ∃ rs, List.lookup (parentStr r1.path) (group_by_folder data) = some rs ∧
        r1 ∈ rs ∧ r2 ∈ rs) := by
  refine ⟨?_, ?_, ?_, ?_, ?_, ?_⟩
  · rw [keysG_group_by_folder]
    exact nodup_keysG_groupFold data [] (by simp [keysG])
  · intro p
    rw [keysG_group_by_folder]
    rw [groupPairs, mem_keysG_groupFold data [] p]
    simp [keysG]
  · simp [convert_json_to_excel, List.map_map, Function.comp]
  · simp [convert_json_to_excel, List.map_map, Function.comp]
  · intro pr hpr
    simp only [group_by_folder, List.mem_map] at hpr
    obtain ⟨⟨k0, rs⟩, -, hpr⟩ := hpr
    rw [← hpr]
    exact List.sorted_insertionSort byFilename rs
  · intro r1 r2 h1 h2 hpar
    obtain ⟨rs1, hl1, hm1⟩ :=
      lookup_groupFold data [] (parentStr r1.path) r1 (Or.inr ⟨h1, rfl⟩)
    obtain ⟨rs2, hl2, hm2⟩ :=
      lookup_groupFold data [] (parentStr r2.path) r2 (Or.inr ⟨h2, rfl⟩)
    rw [← hpar] at hl2
    have hrs : rs1 = rs2 := by
      have := hl1.symm.trans hl2
      exact Option.some.inj this
    subst hrs
    refine ⟨List.insertionSort byFilename rs1, ?_, ?_, ?_⟩
    · rw [group_by_folder, lookup_map_sortGroups, groupPairs] at *
      rw [hl1]
      rfl
    · exact (List.mem_insertionSort byFilename).mpr hm1
    · exact (List.mem_insertionSort byFilename).mpr hm2

/-- C7 witness: two records in folder `a` land, sorted, in the single group
for `a`. -/
theorem c7_grouping_conversion_witness :
    ∃ rs, List.lookup "a"
        (group_by_folder [⟨"z.mp3", "a/z.mp3"⟩, ⟨"b.mp3", "a/b.mp3"⟩])
      = some rs ∧
      (⟨"z.mp3", "a/z.mp3"⟩ : ConvRec) ∈ rs ∧
      (⟨"b.mp3", "a/b.mp3"⟩ : ConvRec) ∈ rs := by
  have h := (c7_grouping_conversion
      [⟨"z.mp3", "a/z.mp3"⟩, ⟨"b.mp3", "a/b.mp3"⟩]).2.2.2.2.2
    ⟨"z.mp3", "a/z.mp3"⟩ ⟨"b.mp3", "a/b.mp3"⟩ (by decide) (by decide) (by decide)
  rw [show parentStr ("a/z.mp3" : String) = "a" from by decide] at h
  exact h

/-! ## Claim C10: the sheet-title mapping is not injective -/

/-- C10: the sheet-name mapping (replace `'/'` with `'__'`, truncate to 31
characters) is not injective: a path containing `'/'` collides with one
containing a literal `'__'`, and two long paths differing only beyond the
31st character collide by truncation. -/
theorem c10_sheet_title_not_injective :
    sheetTitle "a/b" = sheetTitle "a__b" ∧ ("a/b" : String) ≠ "a__b" ∧
    sheetTitle "aaaaaaaaaaaaaaaaaaaaaaaaaaaaaaab"
      = sheetTitle "aaaaaaaaaaaaaaaaaaaaaaaaaaaaaaac" ∧
    ("aaaaaaaaaaaaaaaaaaaaaaaaaaaaaaab" : String)
      ≠ "aaaaaaaaaaaaaaaaaaaaaaaaaaaaaaac" := by
  exact ⟨by decide, by decide, by decide, by decide⟩

/-- C4 amended-claim witness: a directory containing only a non-media file
fails with the no-media condition. -/
theorem c4_batch_errors_witness :
    process_directory (.directory [FSTree.file "notes.txt"])
      (fun _ => ⟨"", "", 0, 0, ""⟩) (fun _ => .failure "e")
      = .valueErrorNoMedia :=
  (c4_batch_errors "blob.bin" [FSTree.file "notes.txt"]
    (fun _ => ⟨"", "", 0, 0, ""⟩) (fun _ => .failure "e") (by decide)).2.2.1
